import Mathlib

/-!
Shallow embedding of the `bigint_as_decimal` TypeScript library.

A decimal value is a pair `(coef, exp)` denoting `coef * 10 ^ exp`.  JavaScript
`BigInt`s are modelled as `Int`; exponents (JS `number`s holding integers) are
modelled as `Int`; JS strings are modelled as `List Char` wrapped in `String`.
Fallible code returns `Except JsErr _`: a thrown `RangeError` / `TypeError` /
`SyntaxError` is modelled as `.error .rangeError` / `.error .typeError` /
`.error .syntaxError`.

JS `BigInt` division truncates toward zero (`Int.tdiv`), `%` is the
toward-zero remainder (`Int.tmod`), and both throw a `RangeError` on a zero
divisor; `jsDiv` / `jsMod` below model exactly that.
-/

/-- Error kinds a thrown JS exception can carry in this library:
`RangeError`, `TypeError` and `SyntaxError`. -/
inductive JsErr where
  | rangeError
  | typeError
  | syntaxError
deriving DecidableEq, Repr

/-- Result of a JS computation that can throw. -/
abbrev JsResult (α : Type) := Except JsErr α

/-- JS `BigInt` division `n / div`: truncation toward zero, `RangeError` on a
zero divisor. -/
def jsDiv (n d : Int) : JsResult Int :=
  if d = 0 then .error .rangeError else .ok (n.tdiv d)

/-- JS `BigInt` remainder `n % div`: sign follows the dividend, `RangeError` on
a zero divisor. -/
def jsMod (n d : Int) : JsResult Int :=
  if d = 0 then .error .rangeError else .ok (n.tmod d)

/-- Type of a rounding mode: `src/rounding.ts` interface `RoundingDivision`,
dividing `n` by `div` and rounding the quotient in a mode-specific manner. -/
abbrev RoundingDivision := Int → Int → JsResult Int

namespace RoundingModes

/-- Embeds `RoundingModes.HALF_UP` of `src/rounding.ts`:
`q = n / div; r2 = (n % div) * 2n; return q + r2 / div`. -/
def HALF_UP : RoundingDivision := fun n div => do
  let q ← jsDiv n div
  let r2 := (← jsMod n div) * 2
  let s ← jsDiv r2 div
  pure (q + s)

/-- Embeds `RoundingModes.HALF_TO_EVEN` of `src/rounding.ts`.  The JS test
`(q & 1n) === 0n` is the two's-complement low bit of `q`, embedded as
`Int.land q 1 = 0` (Mathlib's `Int.land` agrees with JS `&` on negatives). -/
def HALF_TO_EVEN : RoundingDivision := fun n div => do
  let q ← jsDiv n div
  let r2 := (← jsMod n div) * 2
  if Int.land q 1 = 0 ∧ (r2 = div ∨ r2 = -div) then
    pure q
  else do
    let s ← jsDiv r2 div
    pure (q + s)

/-- Embeds `RoundingModes.UP` of `src/rounding.ts`: truncate, then step away
from zero by one when the remainder is nonzero; `sameSign` is the JS
expression `n > 0n === div > 0n`. -/
def UP : RoundingDivision := fun n div => do
  let q ← jsDiv n div
  let r ← jsMod n div
  if r = 0 then
    pure q
  else
    pure (q + (if (0 < n) = (0 < div) then 1 else -1))

/-- Embeds `RoundingModes.DOWN` of `src/rounding.ts`: plain truncation. -/
def DOWN : RoundingDivision := fun n div => jsDiv n div

/-- Embeds `RoundingModes.TOWARD_POSITIVE_INFINITY` of `src/rounding.ts`. -/
def TOWARD_POSITIVE_INFINITY : RoundingDivision := fun n div => do
  let q ← jsDiv n div
  let r ← jsMod n div
  if r = 0 then
    pure q
  else
    pure (q + (if (0 < n) = (0 < div) then 1 else 0))

/-- Embeds `RoundingModes.TOWARD_NEGATIVE_INFINITY` of `src/rounding.ts`. -/
def TOWARD_NEGATIVE_INFINITY : RoundingDivision := fun n div => do
  let q ← jsDiv n div
  let r ← jsMod n div
  if r = 0 then
    pure q
  else
    pure (q - (if (0 < n) = (0 < div) then 0 else 1))

/-- The six rounding modes exported by `src/rounding.ts`. -/
def builtins : List RoundingDivision :=
  [HALF_UP, HALF_TO_EVEN, UP, DOWN, TOWARD_POSITIVE_INFINITY,
    TOWARD_NEGATIVE_INFINITY]

end RoundingModes

/-- The decimal class of `src/index.ts`: `coef * 10 ** exp`. -/
structure BigIntAsDecimal where
  coef : Int
  exp : Int
deriving DecidableEq, Repr

namespace BigIntAsDecimal

/-- Embeds the module-private `scaleCoefSafe` of `src/index.ts` (lines
222-230): identity when `expTo == exp`, exact refinement by a power of ten
when `expTo < exp`, and a thrown `RangeError` otherwise. -/
def scaleCoefSafe (coef exp expTo : Int) : JsResult Int :=
  if expTo = exp then .ok coef
  else if expTo < exp then .ok (coef * 10 ^ (exp - expTo).toNat)
  else .error .rangeError

/-- Embeds the `scaleCoefSafe` variant that accompanies `create` / `parse`
(the version of the class with constructors; `rounding.ts` concatenation,
lines 652-665): like `scaleCoefSafe`, but a coarsening that is an exact
multiple divides exactly instead of throwing. -/
def scaleCoefSafeEx (coef exp expTo : Int) : JsResult Int :=
  if expTo = exp then .ok coef
  else if expTo < exp then .ok (coef * 10 ^ (exp - expTo).toNat)
  else
    let d := (10 : Int) ^ (expTo - exp).toNat
    if coef.tmod d = 0 then .ok (coef.tdiv d) else .error .rangeError

/-- Embeds `BigIntAsDecimal.isInteger` (constructor version, lines 552-554):
`exp >= 0 || coef % 10n ** BigInt(-exp) === 0n`. -/
def isInteger (coef exp : Int) : Bool :=
  decide (0 ≤ exp) || decide (coef.tmod ((10 : Int) ^ (-exp).toNat) = 0)

/-- Embeds the module-private `checkExp`: `Number.isSafeInteger(exp)` on an
integer-valued argument means `|exp| ≤ 2^53 - 1`; otherwise a `TypeError`. -/
def checkExp (exp : Int) : JsResult Unit :=
  if exp.natAbs ≤ 9007199254740991 then .ok () else .error .typeError

/-- Character of a decimal digit value (`0 ↦ '0'`, ..., `9 ↦ '9'`). -/
def digitChar (d : Nat) : Char := Char.ofNat (48 + d)

/-- Numeric value of a decimal digit character. -/
def digitVal (c : Char) : Nat := c.toNat - 48

/-- Models the regex character class `[0-9]`. -/
def isDigitCh (c : Char) : Bool := 48 ≤ c.toNat && c.toNat ≤ 57

/-- Big-endian decimal digits of a natural number, with explicit fuel so the
recursion is structural (the fuel is always sufficient, see
`natToDigitsAux_congr`). -/
def natToDigitsAux : Nat → Nat → List Char
  | 0, _ => []
  | fuel + 1, n =>
    if n < 10 then [digitChar n]
    else natToDigitsAux fuel (n / 10) ++ [digitChar (n % 10)]

/-- Big-endian decimal digit string of a natural number (`0 ↦ "0"`), as JS
`BigInt.prototype.toString` renders magnitudes. -/
def natToDigits (n : Nat) : List Char := natToDigitsAux (n + 1) n

/-- Models JS `BigInt.prototype.toString` (radix 10): decimal digits with a
leading `'-'` for negative values. -/
def bigIntToString (n : Int) : List Char :=
  if n < 0 then '-' :: natToDigits n.natAbs else natToDigits n.natAbs

/-- Numeric value of a big-endian string of decimal digit characters, as JS
`BigInt(string)` computes it for all-digit input (leading zeros allowed). -/
def strToNat (l : List Char) : Nat :=
  l.foldl (fun a c => a * 10 + digitVal c) 0

/-- Models JS `BigInt(s)` on strings of the shape `"-"? [0-9]+` produced and
consumed by this library. -/
def jsBigInt (l : List Char) : Int :=
  match l with
  | '-' :: ds => -(strToNat ds : Int)
  | ds => (strToNat ds : Int)

/-- Models JS `Number.parseInt` on strings matching `[+-]?[0-9]+` (the only
shape the exponent capture group can take). -/
def parseIntCap (l : List Char) : Int :=
  match l with
  | '-' :: ds => -(strToNat ds : Int)
  | '+' :: ds => (strToNat ds : Int)
  | ds => (strToNat ds : Int)

/-- Clamped index of JS `String.prototype.slice`: a negative index counts from
the end, and indices are clamped to `[0, len]`. -/
def jsSliceIdx (i : Int) (len : Nat) : Nat :=
  if i < 0 then ((len : Int) + i).toNat else min i.toNat len

/-- Models the two-argument JS `String.prototype.slice`. -/
def jsSlice2 (s : List Char) (a b : Int) : List Char :=
  (s.take (jsSliceIdx b s.length)).drop (jsSliceIdx a s.length)

/-- Models the one-argument JS `String.prototype.slice`. -/
def jsSlice1 (s : List Char) (a : Int) : List Char :=
  s.drop (jsSliceIdx a s.length)

/-- Models JS `String.prototype.padStart(targetLength, "0")`. -/
def padStart (s : List Char) (target : Nat) : List Char :=
  List.replicate (target - s.length) '0' ++ s

/-- White-space test backing JS `String.prototype.trim`. -/
def isWs (c : Char) : Bool :=
  c = ' ' || c = '\t' || c = '\n' || c = '\r' ||
    c = Char.ofNat 11 || c = Char.ofNat 12

/-- Models JS `String.prototype.trim`: strip white space from both ends. -/
def jsTrim (s : List Char) : List Char :=
  ((s.dropWhile isWs).reverse.dropWhile isWs).reverse

/-- Capture groups of the numeric-literal regex of `parse`:
`^([+-]?)([0-9]+|[0-9]*\.([0-9]+))(?:e([+-]?[0-9]+))?$` (case-insensitive).
`neg` is whether capture 1 is `"-"`; `m2`, `m3`, `m4` are captures 2-4. -/
structure RegexCaptures where
  neg : Bool
  m2 : List Char
  m3 : Option (List Char)
  m4 : Option (List Char)
deriving DecidableEq, Repr

/-- Matches the optional trailing `(?:[eE]([+-]?[0-9]+))?$` of the numeric
regex against the rest of the input, returning capture 4. -/
def matchExpPart (r : List Char) : Option (Option (List Char)) :=
  match r with
  | [] => some none
  | c :: rest =>
    if c = 'e' || c = 'E' then
      let p : List Char × List Char :=
        match rest with
        | c2 :: rest2 =>
          if c2 = '+' || c2 = '-' then ([c2], rest2) else ([], rest)
        | [] => ([], [])
      let d4 := p.1 ++ p.2.takeWhile isDigitCh
      let r3 := p.2.dropWhile isDigitCh
      if (p.2.takeWhile isDigitCh).isEmpty then none
      else if r3.isEmpty then some (some d4) else none
    else none

/-- Matches the leading `([+-]?)` of the numeric regex: the consumed sign
character (capture 1) and the remaining input. -/
def matchSign (s : List Char) : Option Char × List Char :=
  match s with
  | c :: rest => if c = '+' || c = '-' then (some c, rest) else (none, s)
  | [] => (none, [])

/-- Deterministic matcher equivalent to the numeric-literal regex of `parse`
(the alternation `[0-9]+|[0-9]*\.([0-9]+)` is resolved by looking at the
character after the leading digit run, which reproduces the regex engine's
backtracking outcome). -/
def matchNumber (s : List Char) : Option RegexCaptures :=
  let p := matchSign s
  let d1 := p.2.takeWhile isDigitCh
  let r1 := p.2.dropWhile isDigitCh
  match r1 with
  | c :: r2 =>
    if c = '.' then
      let d2 := r2.takeWhile isDigitCh
      let r3 := r2.dropWhile isDigitCh
      if d2.isEmpty then none
      else
        (matchExpPart r3).map fun m4 =>
          ⟨p.1 = some '-', d1 ++ '.' :: d2, some d2, m4⟩
    else
      if d1.isEmpty then none
      else (matchExpPart (c :: r2)).map fun m4 => ⟨p.1 = some '-', d1, none, m4⟩
  | [] =>
    if d1.isEmpty then none
    else (matchExpPart []).map fun m4 => ⟨p.1 = some '-', d1, none, m4⟩

/-- Models `m[2].replace(".", "")`: remove the first `'.'`, if any. -/
def replaceFirstDot : List Char → List Char
  | [] => []
  | c :: r => if c = '.' then r else c :: replaceFirstDot r

/-- Embeds `BigIntAsDecimal.stringify` (`src/index.ts` lines 15-25):
`exp >= 0` refines to exponent `0` and renders the integer; `exp < 0` splits
the digit string of `|coef|` into integer and fraction parts with JS `slice`
and `padStart`. -/
def stringify (coef exp : Int) : JsResult String :=
  if 0 ≤ exp then do
    let v ← scaleCoefSafe coef exp 0
    pure ⟨bigIntToString v⟩
  else
    let sign : List Char := if coef < 0 then ['-'] else []
    let digits := jsSlice1 (bigIntToString coef) (if coef < 0 then 1 else 0)
    let integer := padStart (jsSlice2 digits 0 exp) 1
    let fraction := padStart (jsSlice1 digits exp) (-exp).toNat
    .ok ⟨sign ++ integer ++ '.' :: fraction⟩

/-- Embeds `BigIntAsDecimal.parse` (constructor version, lines 342-366):
trim, match the numeric regex (returning `none` as the JS `null` no-match
sentinel), decode coefficient and coded exponent, and — when a target
exponent is passed — require integrality and retag. -/
def parse (x : String) (expArg : Option Int) :
    JsResult (Option BigIntAsDecimal) := do
  match expArg with
  | some e => checkExp e
  | none => pure ()
  match matchNumber (jsTrim x.data) with
  | none => pure none
  | some m =>
    let sign : List Char := if m.neg then ['-'] else []
    let coef := jsBigInt (sign ++ replaceFirstDot m.m2)
    let lenFrac : Nat := match m.m3 with | none => 0 | some f => f.length
    let expCoded : Int :=
      (match m.m4 with | none => 0 | some ep => parseIntCap ep) - lenFrac
    match expArg with
    | none => pure (some ⟨coef, expCoded⟩)
    | some e =>
      if isInteger coef expCoded then do
        let c ← scaleCoefSafeEx coef expCoded 0
        pure (some ⟨c, e⟩)
      else .error .typeError

/-- Argument shapes of `BigIntAsDecimal.create` modelled here: an existing
decimal, a `bigint`, or a string.  (JS `number` arguments are IEEE floats and
are outside this integer model.) -/
inductive CreateInput where
  | dec (d : BigIntAsDecimal)
  | big (n : Int)
  | str (s : String)

/-- Bottom of `create`: delegate to `parse` and turn the `null` no-match
sentinel into a thrown `SyntaxError`. -/
def createFromString (s : String) (expArg : Option Int) :
    JsResult BigIntAsDecimal := do
  match ← parse s expArg with
  | some d => pure d
  | none => .error .syntaxError

/-- Embeds `BigIntAsDecimal.create` (constructor version, lines 289-331) on
the modelled argument shapes.  Without `exp`, decimals are copied and bigints
get exponent `0`.  With `exp`, after `checkExp`: a decimal argument must be an
integer (`isInteger`), is reduced to exponent `0`, and the resulting integer
coefficient is retagged with `exp`; a bigint is retagged directly; a string
goes through `parse`. -/
def create (x : CreateInput) (expArg : Option Int) : JsResult BigIntAsDecimal :=
  match expArg with
  | none =>
    match x with
    | .dec d => .ok ⟨d.coef, d.exp⟩
    | .big n => .ok ⟨n, 0⟩
    | .str s => createFromString s none
  | some e => do
    checkExp e
    match x with
    | .dec d =>
      if isInteger d.coef d.exp then do
        let c ← scaleCoefSafeEx d.coef d.exp 0
        pure ⟨c, e⟩
      else .error .typeError
    | .big n => pure ⟨n, e⟩
    | .str s => createFromString s (some e)

/-- Option bag of `stringifyLocale`, restricted to the fields its guards
inspect (`notation` and `style`); the remaining `Intl.NumberFormatOptions`
passthrough fields do not affect the guards and are absorbed into the
abstract host formatter argument. -/
structure NumberFormatOptions where
  notation_ : Option String
  style : Option String
deriving DecidableEq, Repr

/-- Type of the abstract host locale formatter (`Intl.NumberFormat`): the
spec treats it as an external collaborator whose internals are assumed, so
the digit-substitution algorithm that runs after the option guards is
abstracted as a single call to it. -/
abbrev HostFormatter :=
  Int → Int → Option (List String) → Option NumberFormatOptions → String

/-- Embeds `BigIntAsDecimal.stringifyLocale` (`src/index.ts` lines 28-124) up
to its option guards: the effective `notation` defaults to `"standard"` and
`style` to `"decimal"` via the options spread; a non-`"standard"` notation or
a `"percent"` style throws a `RangeError` before anything is formatted.  The
rendering that follows the guards delegates to the abstract host
formatter. -/
def stringifyLocale (host : HostFormatter) (coef exp : Int)
    (locales : Option (List String)) (options : Option NumberFormatOptions) :
    JsResult String :=
  let optN : String :=
    match options with
    | none => "standard"
    | some o => o.notation_.getD "standard"
  let optStyle : String :=
    match options with
    | none => "decimal"
    | some o => o.style.getD "decimal"
  if optN ≠ "standard" then .error .rangeError
  else if optStyle = "percent" then .error .rangeError
  else .ok (host coef exp locales options)

/-- Embeds `BigIntAsDecimal.scaleCoef`: coarsening goes through the rounding
mode, otherwise `scaleCoefSafe`. -/
def scaleCoef (coef exp expTo : Int) (rounding : RoundingDivision) :
    JsResult Int :=
  if expTo > exp then rounding coef ((10 : Int) ^ (expTo - exp).toNat)
  else scaleCoefSafe coef exp expTo

/-- Embeds `BigIntAsDecimal.compare`: align to the minimum exponent with
`scaleCoefSafe`, then compare coefficients. -/
def compare (xc xe yc ye : Int) : JsResult Int := do
  let e := min xe ye
  let a ← scaleCoefSafe xc xe e
  let b ← scaleCoefSafe yc ye e
  pure (if a = b then 0 else if b < a then 1 else -1)

/-- Embeds `BigIntAsDecimal.add` (`src/index.ts` lines 145-150). -/
def add (xc xe yc ye : Int) : JsResult BigIntAsDecimal := do
  let e := min xe ye
  let a ← scaleCoefSafe xc xe e
  let b ← scaleCoefSafe yc ye e
  pure ⟨a + b, e⟩

/-- Embeds `BigIntAsDecimal.subtract` (`src/index.ts` lines 153-163). -/
def subtract (xc xe yc ye : Int) : JsResult BigIntAsDecimal := do
  let e := min xe ye
  let a ← scaleCoefSafe xc xe e
  let b ← scaleCoefSafe yc ye e
  pure ⟨a - b, e⟩

/-- Embeds `BigIntAsDecimal.multiply`. -/
def multiply (xc xe yc ye : Int) : JsResult BigIntAsDecimal :=
  .ok ⟨xc * yc, xe + ye⟩

/-- Embeds `BigIntAsDecimal.divide` (`src/index.ts` lines 176-196): normalize
a positive divisor exponent to `0` by exact refinement, then reject when
`expOut + ye > xe` (the double-rounding guard, on the normalized `ye`), then
refine the dividend to `expOut + ye` and apply the rounding division. -/
def divide (xc xe yc ye expOut : Int) (rounding : RoundingDivision) :
    JsResult BigIntAsDecimal := do
  let p ← if 0 < ye then do
      let c ← scaleCoefSafe yc ye 0
      pure (c, (0 : Int))
    else
      pure (yc, ye)
  let yc := p.1
  let ye := p.2
  if expOut + ye > xe then
    .error .rangeError
  else do
    let xc ← scaleCoefSafe xc xe (expOut + ye)
    let q ← rounding xc yc
    pure ⟨q, expOut⟩

/-- Embeds `BigIntAsDecimal.defaultRounding`, initialized in the source to
`RoundingModes.HALF_UP` (`src/index.ts` line 198). -/
def defaultRounding : RoundingDivision := RoundingModes.HALF_UP

/-- Embeds the exported constant `BigIntAsDecimal.ROUND_HALF_UP`. -/
def ROUND_HALF_UP : RoundingDivision := RoundingModes.HALF_UP

/-- Models a `divide` call that omits the `rounding` argument: the JS default
parameter supplies `BigIntAsDecimal.defaultRounding`. -/
def divideD (xc xe yc ye expOut : Int) : JsResult BigIntAsDecimal :=
  divide xc xe yc ye expOut defaultRounding

/-- Models a `scaleCoef` call that omits the `rounding` argument. -/
def scaleCoefD (coef exp expTo : Int) : JsResult Int :=
  scaleCoef coef exp expTo defaultRounding

/-- Embeds the instance method `setExp` (constructor version, lines 392-401):
`checkExp(expTo)` then rescale through `scaleCoef`. -/
def setExp (d : BigIntAsDecimal) (expTo : Int) (rounding : RoundingDivision) :
    JsResult BigIntAsDecimal := do
  checkExp expTo
  let c ← scaleCoef d.coef d.exp expTo rounding
  pure ⟨c, expTo⟩

/-- Models a `setExp` call that omits the `rounding` argument. -/
def setExpD (d : BigIntAsDecimal) (expTo : Int) : JsResult BigIntAsDecimal :=
  setExp d expTo defaultRounding

end BigIntAsDecimal

/-- A value of the source's function-typed `RoundingDivision` interface that
returns a constant without performing any division; calling `divide` with it
observes whether `divide` itself checks the divisor before invoking the
rounding mode. -/
def constRounding : RoundingDivision := fun _ _ => .ok 42

instance {ε α : Type} [DecidableEq ε] [DecidableEq α] :
    DecidableEq (Except ε α) := fun x y =>
  match x, y with
  | .ok a, .ok b =>
    if h : a = b then .isTrue (by rw [h]) else .isFalse (by simp [h])
  | .error a, .error b =>
    if h : a = b then .isTrue (by rw [h]) else .isFalse (by simp [h])
  | .ok _, .error _ => .isFalse (by simp)
  | .error _, .ok _ => .isFalse (by simp)

theorem jsBind_ok {α β : Type} (a : α) (f : α → JsResult β) :
    (Except.ok a >>= f) = f a := rfl

theorem jsBind_error {α β : Type} (er : JsErr) (f : α → JsResult β) :
    ((Except.error er : JsResult α) >>= f) = .error er := rfl

theorem jsPure {α : Type} (a : α) : (pure a : JsResult α) = .ok a := rfl

attribute [simp] jsBind_ok jsBind_error jsPure

namespace BigIntAsDecimal

theorem scaleCoefSafe_of_le (coef exp expTo : Int) (h : expTo ≤ exp) :
    scaleCoefSafe coef exp expTo = .ok (coef * 10 ^ (exp - expTo).toNat) := by
  unfold scaleCoefSafe
  rcases eq_or_lt_of_le h with he | hl
  · subst he; simp
  · rw [if_neg (by omega), if_pos hl]

theorem scaleCoefSafeEx_of_le (coef exp expTo : Int) (h : expTo ≤ exp) :
    scaleCoefSafeEx coef exp expTo = .ok (coef * 10 ^ (exp - expTo).toNat) := by
  unfold scaleCoefSafeEx
  rcases eq_or_lt_of_le h with he | hl
  · subst he; simp
  · rw [if_neg (by omega), if_pos hl]

end BigIntAsDecimal

/-- Claim C10: the process-wide default rounding mode is initialized to
`HALF_UP` (round half away from zero), so every call to `divide`, `scaleCoef`
or `setExp` that omits the rounding argument returns the same result as the
identical call with `ROUND_HALF_UP` passed explicitly. -/
theorem default_rounding_is_half_up :
    BigIntAsDecimal.defaultRounding = RoundingModes.HALF_UP ∧
    BigIntAsDecimal.ROUND_HALF_UP = RoundingModes.HALF_UP ∧
    (∀ xc xe yc ye expOut : Int,
      BigIntAsDecimal.divideD xc xe yc ye expOut =
        BigIntAsDecimal.divide xc xe yc ye expOut
          BigIntAsDecimal.ROUND_HALF_UP) ∧
    (∀ coef exp expTo : Int,
      BigIntAsDecimal.scaleCoefD coef exp expTo =
        BigIntAsDecimal.scaleCoef coef exp expTo
          BigIntAsDecimal.ROUND_HALF_UP) ∧
    (∀ (d : BigIntAsDecimal) (expTo : Int),
      BigIntAsDecimal.setExpD d expTo =
        BigIntAsDecimal.setExp d expTo BigIntAsDecimal.ROUND_HALF_UP) :=
  ⟨rfl, rfl, fun _ _ _ _ _ => rfl, fun _ _ _ => rfl, fun _ _ => rfl⟩

/-- Claim C5: `add` and `subtract` align both operands to the minimum
exponent `m = min xe ye` by exact refinement and combine the coefficients;
the result is `(xc * 10^(xe-m) ± yc * 10^(ye-m), m)` and neither operation
ever fails. -/
theorem add_subtract_exact (xc xe yc ye : Int) :
    BigIntAsDecimal.add xc xe yc ye =
      .ok ⟨xc * 10 ^ (xe - min xe ye).toNat + yc * 10 ^ (ye - min xe ye).toNat,
        min xe ye⟩ ∧
    BigIntAsDecimal.subtract xc xe yc ye =
      .ok ⟨xc * 10 ^ (xe - min xe ye).toNat - yc * 10 ^ (ye - min xe ye).toNat,
        min xe ye⟩ := by
  constructor <;>
    simp [BigIntAsDecimal.add, BigIntAsDecimal.subtract,
      BigIntAsDecimal.scaleCoefSafe_of_le _ _ _ (min_le_left xe ye),
      BigIntAsDecimal.scaleCoefSafe_of_le _ _ _ (min_le_right xe ye)]

/-- Claim C9: `stringifyLocale` fails with a `RangeError` when
`options.notation` is given and is not `"standard"`, or when `options.style`
is `"percent"`; the rejection does not depend on the host formatter, i.e. it
happens before any call to it. -/
theorem stringifyLocale_rejects_unsupported
    (host : BigIntAsDecimal.HostFormatter) (coef exp : Int)
    (locales : Option (List String))
    (options : Option BigIntAsDecimal.NumberFormatOptions)
    (h : (∃ o s, options = some o ∧ o.notation_ = some s ∧ s ≠ "standard") ∨
      (∃ o, options = some o ∧ o.style = some "percent")) :
    BigIntAsDecimal.stringifyLocale host coef exp locales options =
      .error .rangeError := by
  unfold BigIntAsDecimal.stringifyLocale
  rcases h with ⟨o, s, rfl, hn, hs⟩ | ⟨o, rfl, hst⟩
  · simp [hn, hs]
  · by_cases hn : o.notation_.getD "standard" = "standard"
    · simp [hn, hst]
    · simp [hn]

/-- Witness for C9 at a concrete unsupported option bag. -/
theorem stringifyLocale_rejects_unsupported_witness :
    BigIntAsDecimal.stringifyLocale (fun _ _ _ _ => "") 1 0 none
      (some ⟨some "scientific", none⟩) = .error .rangeError :=
  stringifyLocale_rejects_unsupported (fun _ _ _ _ => "") 1 0 none
    (some ⟨some "scientific", none⟩)
    (Or.inl ⟨⟨some "scientific", none⟩, "scientific", rfl, rfl, by decide⟩)

/-- Counterexample to claim C3: in `src/index.ts` `stringify` has no special
case for a zero coefficient, so `stringify(0, -3)` renders the zero through
the fraction path and returns `"0.000"`, not `"0"` (this matches the
repository's own test vector `[0n, -3, "0.000"]` in `test/stringify.js`). -/
theorem stringify_zero_counterexample :
    BigIntAsDecimal.stringify 0 (-3) = .ok "0.000" := by decide

/-- Claim C3 as amended: `stringify(0, e)` returns `"0"` for `e >= 0`, and
`"0."` followed by `-e` zero digits for `e < 0`. -/
theorem stringify_zero_eq (e : Int) :
    BigIntAsDecimal.stringify 0 e =
      .ok (if 0 ≤ e then "0"
        else ⟨'0' :: '.' :: List.replicate (-e).toNat '0'⟩) := by
  by_cases h : 0 ≤ e
  · rw [if_pos h]
    unfold BigIntAsDecimal.stringify
    rw [if_pos h, BigIntAsDecimal.scaleCoefSafe_of_le 0 e 0 h]
    simp only [zero_mul, jsBind_ok]
    decide
  · rw [if_neg h]
    unfold BigIntAsDecimal.stringify
    rw [if_neg h]
    have hb : BigIntAsDecimal.bigIntToString 0 = ['0'] := by decide
    have hs : ((0 : Int) < 0) = False := by simp
    simp only [hs, if_false, hb]
    have h1 : BigIntAsDecimal.jsSlice1 ['0'] 0 = ['0'] := by decide
    rw [h1]
    have h2 : BigIntAsDecimal.jsSlice2 ['0'] 0 e = [] := by
      unfold BigIntAsDecimal.jsSlice2 BigIntAsDecimal.jsSliceIdx
      rw [if_pos (by omega : e < 0)]
      have : ((List.length ['0'] : Int) + e).toNat = 0 := by
        simp only [List.length_singleton]; omega
      rw [this]
      simp
    rw [h2]
    have h3 : BigIntAsDecimal.jsSlice1 ['0'] e = ['0'] := by
      unfold BigIntAsDecimal.jsSlice1 BigIntAsDecimal.jsSliceIdx
      rw [if_pos (by omega : e < 0)]
      have : ((List.length ['0'] : Int) + e).toNat = 0 := by
        simp only [List.length_singleton]; omega
      rw [this]
      simp
    rw [h3]
    unfold BigIntAsDecimal.padStart
    simp only [List.length_nil, List.length_singleton, Nat.sub_zero,
      List.replicate_one, List.append_nil, List.nil_append]
    obtain ⟨k, hk⟩ : ∃ k, (-e).toNat = k + 1 := ⟨(-e).toNat - 1, by omega⟩
    rw [hk]
    simp only [Nat.add_sub_cancel, Except.ok.injEq]
    have : List.replicate k '0' ++ ['0'] = List.replicate (k + 1) '0' :=
      (List.replicate_succ' k '0').symm
    rw [← this]
    rfl

/-- Counterexample to claim C1: for the dividend `(1, 0)` and divisor
`(1, 1)` with output exponent `0`, the claimed guard condition
`expOut + ye - xe = 1 > 0` holds, yet `divide` succeeds (the source first
normalizes the positive divisor exponent to `0` exactly and applies the
guard to the normalized exponent): `1 / 10` rounds to `0`. -/
theorem divide_positive_ye_guard_counterexample :
    ((0 : Int) + 1 - 0 > 0) ∧
      BigIntAsDecimal.divide 1 0 1 1 0 RoundingModes.HALF_UP = .ok ⟨0, 0⟩ :=
  ⟨by decide, by decide⟩

/-- Claim C1 as amended: `divide` fails with a `RangeError` when
`expOut + min(ye, 0) - xe > 0`, i.e. when the double-rounding condition holds
for the divisor exponent after the exact normalization of a positive `ye` to
`0`; the rejection is independent of the rounding argument, so it occurs
before any rounding computation. -/
theorem divide_double_rounding_guard (xc xe yc ye expOut : Int)
    (rounding : RoundingDivision) (h : expOut + min ye 0 - xe > 0) :
    BigIntAsDecimal.divide xc xe yc ye expOut rounding =
      .error .rangeError := by
  unfold BigIntAsDecimal.divide
  by_cases hy : 0 < ye
  · rw [if_pos hy, BigIntAsDecimal.scaleCoefSafe_of_le yc ye 0 hy.le]
    simp only [jsBind_ok, jsPure]
    rw [if_pos (by omega : expOut + (0 : Int) > xe)]
  · rw [if_neg hy]
    simp only [jsBind_ok, jsPure]
    rw [if_pos (by omega : expOut + ye > xe)]

/-- Witness for C1 (amended) at `xc = 1, xe = 0, yc = 1, ye = 0,
expOut = 1`. -/
theorem divide_double_rounding_guard_witness :
    ((1 : Int) + min 0 0 - 0 > 0) ∧
      BigIntAsDecimal.divide 1 0 1 0 1 RoundingModes.HALF_UP =
        .error .rangeError :=
  ⟨by decide,
    divide_double_rounding_guard 1 0 1 0 1 RoundingModes.HALF_UP (by decide)⟩

/-- Counterexample to claim C4: `divide` performs no explicit zero-divisor
check before invoking the rounding mode.  With a rounding-interface value
that never divides, `divide` with the zero divisor `(0, 0)` returns that
value's result instead of failing, so the `RangeError` observed with the
built-in modes comes from the rounding division itself, not from a
precondition check made before the Rounding Engine is invoked. -/
theorem divide_zero_divisor_counterexample :
    BigIntAsDecimal.divide 1 0 0 0 0 constRounding = .ok ⟨42, 0⟩ := by decide

/-- Helper for C4: if a rounding mode fails with a `RangeError` on a zero
divisor, then `divide` with a zero divisor coefficient always fails with a
`RangeError` (either through the double-rounding guard or through the
rounding division). -/
theorem divide_zero_divisor_of_mode (rounding : RoundingDivision)
    (hmode : ∀ x, rounding x 0 = .error .rangeError) (xc xe ye expOut : Int) :
    BigIntAsDecimal.divide xc xe 0 ye expOut rounding =
      .error .rangeError := by
  unfold BigIntAsDecimal.divide
  by_cases hy : 0 < ye
  · rw [if_pos hy, BigIntAsDecimal.scaleCoefSafe_of_le 0 ye 0 hy.le]
    simp only [zero_mul, jsBind_ok, jsPure]
    by_cases hg : expOut + (0 : Int) > xe
    · rw [if_pos hg]
    · rw [if_neg hg,
        BigIntAsDecimal.scaleCoefSafe_of_le xc xe (expOut + 0) (by omega)]
      simp only [jsBind_ok, hmode, jsBind_error]
  · rw [if_neg hy]
    simp only [jsBind_ok, jsPure]
    by_cases hg : expOut + ye > xe
    · rw [if_pos hg]
    · rw [if_neg hg,
        BigIntAsDecimal.scaleCoefSafe_of_le xc xe (expOut + ye) (by omega)]
      simp only [jsBind_ok, hmode, jsBind_error]

/-- Claim C4 as amended: for every built-in rounding mode, `divide` with a
zero divisor coefficient fails with a `RangeError`; when the double-rounding
guard passes, the error is raised by the Rounding Engine's own division by
zero (`jsDiv`), not by an explicit precondition check made before invoking
it. -/
theorem divide_zero_divisor_range_error :
    ∀ rounding ∈ RoundingModes.builtins, ∀ xc xe ye expOut : Int,
      BigIntAsDecimal.divide xc xe 0 ye expOut rounding =
        .error .rangeError := by
  intro r hr
  fin_cases hr <;> exact divide_zero_divisor_of_mode _ (fun _ => rfl)

/-- Witness for C4 (amended) at the `HALF_UP` mode with dividend `(1, 0)`. -/
theorem divide_zero_divisor_range_error_witness :
    BigIntAsDecimal.divide 1 0 0 0 0 RoundingModes.HALF_UP =
      .error .rangeError :=
  divide_zero_divisor_range_error RoundingModes.HALF_UP
    (List.mem_cons_self _ _) 1 0 0 0

/-- Counterexample to claim C2: the value `v = Decimal(5, 0)` (numerically
`5`) is not an exact integer multiple of `10^2`, yet `create(v, 2)` succeeds;
the result `Decimal(5, 2)` is `500`, which is not numerically equal to `v`
(`compare` returns `1`).  `create` only requires `v` to be an integer and
retags `int(v)` with the new exponent. -/
theorem create_with_exponent_counterexample :
    BigIntAsDecimal.create (.dec ⟨5, 0⟩) (some 2) = .ok ⟨5, 2⟩ ∧
      Int.tmod 5 (10 ^ 2) ≠ 0 ∧
      BigIntAsDecimal.compare 5 2 5 0 = .ok 1 :=
  ⟨by decide, by decide, by decide⟩

/-- Claim C2 as amended: with an explicitly passed (safe-integer) exponent
`e`, `create(v, e)` fails with a `TypeError` exactly when `v` is not an exact
integer (for a decimal argument, when `coef * 10^exp` is not an integer; a
bigint argument always passes); on success it returns `Decimal(int(v), e)` —
the integer value of `v` retagged with exponent `e`, numerically equal to
`int(v) * 10^e` rather than to `v`. -/
theorem create_with_exponent_retags_integer (d : BigIntAsDecimal) (n e : Int)
    (he : BigIntAsDecimal.checkExp e = .ok ()) :
    (BigIntAsDecimal.isInteger d.coef d.exp = false →
      BigIntAsDecimal.create (.dec d) (some e) = .error .typeError) ∧
    BigIntAsDecimal.create (.big n) (some e) = .ok ⟨n, e⟩ ∧
    (BigIntAsDecimal.isInteger d.coef d.exp = true →
      ∃ c, BigIntAsDecimal.scaleCoefSafeEx d.coef d.exp 0 = .ok c ∧
        BigIntAsDecimal.create (.dec d) (some e) = .ok ⟨c, e⟩ ∧
        BigIntAsDecimal.compare c 0 d.coef d.exp = .ok 0) := by
  refine ⟨fun hInt => ?_, ?_, fun hInt => ?_⟩
  · simp only [BigIntAsDecimal.create, he, jsBind_ok, hInt,
      Bool.false_eq_true, if_false]
  · simp only [BigIntAsDecimal.create, he, jsBind_ok, jsPure]
  · by_cases h0 : 0 ≤ d.exp
    · refine ⟨d.coef * 10 ^ (d.exp - 0).toNat,
        BigIntAsDecimal.scaleCoefSafeEx_of_le d.coef d.exp 0 h0, ?_, ?_⟩
      · simp only [BigIntAsDecimal.create, he, jsBind_ok, hInt, if_true,
          BigIntAsDecimal.scaleCoefSafeEx_of_le d.coef d.exp 0 h0, jsPure]
      · unfold BigIntAsDecimal.compare
        simp only [min_eq_left h0,
          BigIntAsDecimal.scaleCoefSafe_of_le
            (d.coef * 10 ^ (d.exp - 0).toNat) 0 0 le_rfl,
          BigIntAsDecimal.scaleCoefSafe_of_le d.coef d.exp 0 h0,
          jsBind_ok, jsPure]
        simp
    · have hm : Int.tmod d.coef ((10 : Int) ^ (-d.exp).toNat) = 0 := by
        have := hInt
        unfold BigIntAsDecimal.isInteger at this
        simpa [h0] using this
      have hsc : BigIntAsDecimal.scaleCoefSafeEx d.coef d.exp 0 =
          .ok (Int.tdiv d.coef ((10 : Int) ^ (-d.exp).toNat)) := by
        unfold BigIntAsDecimal.scaleCoefSafeEx
        rw [if_neg (by omega), if_neg (by omega)]
        simp only [zero_sub, hm]
        simp
      refine ⟨Int.tdiv d.coef ((10 : Int) ^ (-d.exp).toNat), hsc, ?_, ?_⟩
      · simp only [BigIntAsDecimal.create, he, jsBind_ok, hInt, if_true,
          hsc, jsPure]
      · have hdvd : ((10 : Int) ^ (-d.exp).toNat) ∣ d.coef :=
          Int.dvd_of_tmod_eq_zero hm
        unfold BigIntAsDecimal.compare
        have h1 := BigIntAsDecimal.scaleCoefSafe_of_le
          (Int.tdiv d.coef ((10 : Int) ^ (-d.exp).toNat)) 0 d.exp (by omega)
        have h2 := BigIntAsDecimal.scaleCoefSafe_of_le d.coef d.exp d.exp le_rfl
        have h3 : (0 - d.exp).toNat = (-d.exp).toNat := by omega
        rw [h3] at h1
        simp only [min_eq_right (by omega : d.exp ≤ (0 : Int)), h1, h2,
          jsBind_ok, jsPure, Int.tdiv_mul_cancel hdvd]
        simp

/-- Witness for C2 (amended) at `d = Decimal(123, -1)` (not an integer) and
`e = 2`. -/
theorem create_with_exponent_retags_integer_witness :
    BigIntAsDecimal.checkExp 2 = .ok () ∧
      BigIntAsDecimal.create (.dec ⟨123, -1⟩) (some 2) = .error .typeError :=
  ⟨by decide,
    (create_with_exponent_retags_integer ⟨123, -1⟩ 7 2 (by decide)).1
      (by decide)⟩

theorem nat_ldiff_one (m : Nat) :
    Nat.ldiff 1 m = if m % 2 = 0 then 1 else 0 := by
  apply Nat.eq_of_testBit_eq
  intro k
  rw [Nat.testBit_ldiff]
  cases k with
  | zero =>
    rcases Nat.mod_two_eq_zero_or_one m with h | h
    · have hm : m.testBit 0 = false := by
        rw [Nat.testBit_zero]
        simp [h]
      simp [hm, h]
    · have hm : m.testBit 0 = true := by
        rw [Nat.testBit_zero]
        simp [h]
      simp [hm, h]
  | succ k =>
    have h1 : Nat.testBit 1 (k + 1) = false := by
      rw [Nat.testBit_succ]
      simp
    rcases Nat.mod_two_eq_zero_or_one m with h | h <;> simp [h1, h]

theorem int_land_one (q : Int) : Int.land q 1 = 0 ↔ q % 2 = 0 := by
  cases q with
  | ofNat m =>
    have h : Int.land (Int.ofNat m) 1 = Int.ofNat (m &&& 1) := rfl
    rw [h, Nat.and_one_is_mod]
    show ((m % 2 : Nat) : Int) = 0 ↔ ((m : Nat) : Int) % 2 = 0
    omega
  | negSucc m =>
    have h : Int.land (Int.negSucc m) 1 = Int.ofNat (Nat.ldiff 1 m) := rfl
    rw [h, nat_ldiff_one, Int.negSucc_eq]
    show ((if m % 2 = 0 then 1 else 0 : Nat) : Int) = 0 ↔ -((m : Int) + 1) % 2 = 0
    rcases Nat.mod_two_eq_zero_or_one m with hm | hm <;> simp [hm] <;> omega

theorem int_neg_tmod (a b : Int) : (-a).tmod b = -(a.tmod b) := by
  rw [Int.tmod_def, Int.tmod_def, Int.neg_tdiv]
  ring

theorem int_tmod_nonpos (a b : Int) (h : a ≤ 0) : a.tmod b ≤ 0 := by
  have := Int.tmod_nonneg b (by omega : (0 : Int) ≤ -a)
  rw [int_neg_tmod] at this
  omega

theorem int_abs_tmod_lt (a : Int) {b : Int} (hb : b ≠ 0) :
    |a.tmod b| < |b| := by
  have key : ∀ (x : Int) {d : Int}, 0 < d → |x.tmod d| < d := by
    intro x d hd
    rcases le_or_lt 0 x with hx | hx
    · rw [abs_of_nonneg (Int.tmod_nonneg d hx)]
      exact Int.tmod_lt_of_pos x hd
    · have h1 := Int.tmod_nonneg d (by omega : (0 : Int) ≤ -x)
      have h2 := Int.tmod_lt_of_pos (-x) hd
      rw [int_neg_tmod] at h1 h2
      rw [abs_of_nonpos (by omega)]
      omega
  rcases lt_or_gt_of_ne hb with h | h
  · have := key a (show (0 : Int) < -b by omega)
    rw [Int.tmod_neg] at this
    rw [abs_of_neg h]
    exact this
  · rw [abs_of_pos h]
    exact key a h

theorem int_tdiv_nonneg_of {x d : Int}
    (h : 0 ≤ x ∧ 0 ≤ d ∨ x ≤ 0 ∧ d ≤ 0) : 0 ≤ x.tdiv d := by
  rcases h with ⟨hx, hd⟩ | ⟨hx, hd⟩
  · exact Int.tdiv_nonneg hx hd
  · have := Int.tdiv_nonneg (show (0 : Int) ≤ -x by omega)
      (show (0 : Int) ≤ -d by omega)
    rw [Int.neg_tdiv, Int.tdiv_neg] at this
    omega

theorem int_tdiv_nonpos_of {x d : Int}
    (h : 0 ≤ x ∧ d ≤ 0 ∨ x ≤ 0 ∧ 0 ≤ d) : x.tdiv d ≤ 0 := by
  rcases h with ⟨hx, hd⟩ | ⟨hx, hd⟩
  · have := Int.tdiv_nonneg hx (show (0 : Int) ≤ -d by omega)
    rw [Int.tdiv_neg] at this
    omega
  · have := Int.tdiv_nonneg (show (0 : Int) ≤ -x by omega) hd
    rw [Int.neg_tdiv] at this
    omega

theorem tdiv_double_rem (n d : Int) (hd : d ≠ 0) :
    (n.tmod d * 2).tdiv d =
      if |d| ≤ |n.tmod d * 2| then (if (0 < n) = (0 < d) then 1 else -1)
      else 0 := by
  have habs : |n.tmod d| < |d| := int_abs_tmod_lt n hd
  by_cases hbig : |d| ≤ |n.tmod d * 2|
  · rw [if_pos hbig]
    have hr0 : n.tmod d ≠ 0 := by
      intro h
      rw [h] at hbig
      simp at hbig
      omega
    have hn0 : n ≠ 0 := by
      intro h
      rw [h, Int.zero_tmod] at hr0
      exact hr0 rfl
    have habs1 : d.natAbs ≤ (n.tmod d * 2).natAbs := by
      have h1 : |d| = (d.natAbs : Int) := Int.abs_eq_natAbs d
      have h2 : |n.tmod d * 2| = ((n.tmod d * 2).natAbs : Int) :=
        Int.abs_eq_natAbs _
      omega
    have habs2 : (n.tmod d * 2).natAbs < 2 * d.natAbs := by
      have h1 : |d| = (d.natAbs : Int) := Int.abs_eq_natAbs d
      have h2 : |n.tmod d| = ((n.tmod d).natAbs : Int) := Int.abs_eq_natAbs _
      have h3 : (n.tmod d * 2).natAbs = (n.tmod d).natAbs * 2 := by
        rw [Int.natAbs_mul]
        rfl
      omega
    have hone : ((n.tmod d * 2).tdiv d).natAbs = 1 := by
      rw [Int.natAbs_tdiv]
      exact Nat.div_eq_of_lt_le (by omega) (by omega)
    rcases lt_trichotomy n 0 with hn | hn | hn
    · have hrneg : n.tmod d ≤ 0 := int_tmod_nonpos n d hn.le
      rcases hd.lt_or_lt with hdn | hdp
      · have hs : (0 < n) = (0 < d) := by
          rw [eq_false (by omega : ¬(0 : Int) < n),
            eq_false (by omega : ¬(0 : Int) < d)]
        rw [if_pos hs]
        have := int_tdiv_nonneg_of
          (Or.inr ⟨by omega, hdn.le⟩ :
            0 ≤ n.tmod d * 2 ∧ 0 ≤ d ∨ n.tmod d * 2 ≤ 0 ∧ d ≤ 0)
        omega
      · have hs : ¬((0 < n) = (0 < d)) := by
          rw [eq_false (by omega : ¬(0 : Int) < n), eq_true hdp]
          simp
        rw [if_neg hs]
        have := int_tdiv_nonpos_of
          (Or.inr ⟨by omega, hdp.le⟩ :
            0 ≤ n.tmod d * 2 ∧ d ≤ 0 ∨ n.tmod d * 2 ≤ 0 ∧ 0 ≤ d)
        omega
    · exact absurd hn hn0
    · have hrpos : 0 ≤ n.tmod d := Int.tmod_nonneg d hn.le
      rcases hd.lt_or_lt with hdn | hdp
      · have hs : ¬((0 < n) = (0 < d)) := by
          rw [eq_true hn, eq_false (by omega : ¬(0 : Int) < d)]
          simp
        rw [if_neg hs]
        have := int_tdiv_nonpos_of
          (Or.inl ⟨by omega, hdn.le⟩ :
            0 ≤ n.tmod d * 2 ∧ d ≤ 0 ∨ n.tmod d * 2 ≤ 0 ∧ 0 ≤ d)
        omega
      · have hs : (0 < n) = (0 < d) := by rw [eq_true hn, eq_true hdp]
        rw [if_pos hs]
        have := int_tdiv_nonneg_of
          (Or.inl ⟨by omega, hdp.le⟩ :
            0 ≤ n.tmod d * 2 ∧ 0 ≤ d ∨ n.tmod d * 2 ≤ 0 ∧ d ≤ 0)
        omega
  · rw [if_neg hbig]
    have hsmall : (n.tmod d * 2).natAbs < d.natAbs := by
      have h1 : |d| = (d.natAbs : Int) := Int.abs_eq_natAbs d
      have h2 : |n.tmod d * 2| = ((n.tmod d * 2).natAbs : Int) :=
        Int.abs_eq_natAbs _
      omega
    have := Int.natAbs_tdiv (n.tmod d * 2) d
    have hz : ((n.tmod d * 2).tdiv d).natAbs = 0 := by
      rw [Int.natAbs_tdiv]
      exact Nat.div_eq_of_lt hsmall
    omega

theorem half_up_eval (n d : Int) (hd : d ≠ 0) :
    RoundingModes.HALF_UP n d =
      .ok (if |d| ≤ |n.tmod d * 2| then
            n.tdiv d + (if (0 < n) = (0 < d) then 1 else -1)
          else n.tdiv d) := by
  unfold RoundingModes.HALF_UP jsDiv jsMod
  simp only [if_neg hd, jsBind_ok, jsPure]
  rw [tdiv_double_rem n d hd]
  split <;> simp

theorem half_to_even_agrees (n d : Int) (hd : d ≠ 0) :
    RoundingModes.HALF_TO_EVEN n d =
      if (n.tmod d * 2 = d ∨ n.tmod d * 2 = -d) ∧ n.tdiv d % 2 = 0 then
        .ok (n.tdiv d)
      else RoundingModes.HALF_UP n d := by
  unfold RoundingModes.HALF_TO_EVEN RoundingModes.HALF_UP jsDiv jsMod
  simp only [if_neg hd, jsBind_ok, jsPure]
  have hiff : (Int.land (n.tdiv d) 1 = 0 ∧
      (n.tmod d * 2 = d ∨ n.tmod d * 2 = -d)) ↔
      ((n.tmod d * 2 = d ∨ n.tmod d * 2 = -d) ∧ n.tdiv d % 2 = 0) :=
    Iff.intro (fun h => ⟨h.2, (int_land_one _).mp h.1⟩)
      (fun h => ⟨(int_land_one _).mpr h.2, h.1⟩)
  rw [if_congr hiff rfl rfl]

/-- Claim C6: for every integer `n` and nonzero `div`, in all sign
combinations, `HALF_UP(n, div)` is the truncated quotient `q` stepped away
from zero by `1` exactly when `|2r| >= |div|` (`r` the truncated remainder),
and `HALF_TO_EVEN` agrees with `HALF_UP` except that it returns `q` unchanged
when the remainder is exactly half (`2r = div` or `2r = -div`) and `q` is
even; in particular `HALF_TO_EVEN(5,10) = 0`, `HALF_TO_EVEN(15,10) = 2`,
`HALF_UP(5,10) = 1`. -/
theorem half_up_half_to_even_spec :
    (∀ n d : Int, d ≠ 0 →
      RoundingModes.HALF_UP n d =
        .ok (if |d| ≤ |n.tmod d * 2| then
              n.tdiv d + (if (0 < n) = (0 < d) then 1 else -1)
            else n.tdiv d)) ∧
    (∀ n d : Int, d ≠ 0 →
      RoundingModes.HALF_TO_EVEN n d =
        if (n.tmod d * 2 = d ∨ n.tmod d * 2 = -d) ∧ n.tdiv d % 2 = 0 then
          .ok (n.tdiv d)
        else RoundingModes.HALF_UP n d) ∧
    RoundingModes.HALF_TO_EVEN 5 10 = .ok 0 ∧
    RoundingModes.HALF_TO_EVEN 15 10 = .ok 2 ∧
    RoundingModes.HALF_UP 5 10 = .ok 1 :=
  ⟨half_up_eval, half_to_even_agrees, by decide, by decide, by decide⟩

/-- Witness for C6 at `n = 5, d = 10`. -/
theorem half_up_half_to_even_spec_witness :
    ((10 : Int) ≠ 0) ∧
      RoundingModes.HALF_UP 5 10 =
        .ok (if |(10 : Int)| ≤ |Int.tmod 5 10 * 2| then
              Int.tdiv 5 10 + (if ((0 : Int) < 5) = ((0 : Int) < 10)
                then 1 else -1)
            else Int.tdiv 5 10) :=
  ⟨by decide, half_up_half_to_even_spec.1 5 10 (by decide)⟩

theorem rat_floor_div_eq {n d v r : Int} (hd : d ≠ 0) (h : n = d * v + r)
    (h1 : 0 < d → 0 ≤ r ∧ r < d) (h2 : d < 0 → d < r ∧ r ≤ 0) :
    ⌊(n : ℚ) / (d : ℚ)⌋ = v := by
  have hq : (n : ℚ) = (d : ℚ) * (v : ℚ) + (r : ℚ) := by exact_mod_cast h
  rw [Int.floor_eq_iff]
  rcases hd.lt_or_lt with hdn | hdp
  · have hdq : (d : ℚ) < 0 := by exact_mod_cast hdn
    obtain ⟨hr1, hr2⟩ := h2 hdn
    have hr1q : (d : ℚ) < (r : ℚ) := by exact_mod_cast hr1
    have hr2q : (r : ℚ) ≤ 0 := by exact_mod_cast hr2
    constructor
    · rw [le_div_iff_of_neg hdq, hq]
      linarith [mul_comm (d : ℚ) (v : ℚ)]
    · rw [div_lt_iff_of_neg hdq, hq]
      have : ((v : ℚ) + 1) * d = d * v + d := by ring
      linarith [this]
  · have hdq : (0 : ℚ) < (d : ℚ) := by exact_mod_cast hdp
    obtain ⟨hr1, hr2⟩ := h1 hdp
    have hr1q : (0 : ℚ) ≤ (r : ℚ) := by exact_mod_cast hr1
    have hr2q : (r : ℚ) < (d : ℚ) := by exact_mod_cast hr2
    constructor
    · rw [le_div_iff₀ hdq, hq]
      linarith [mul_comm (d : ℚ) (v : ℚ)]
    · rw [div_lt_iff₀ hdq, hq]
      have : ((v : ℚ) + 1) * d = d * v + d := by ring
      linarith [this]

theorem rat_ceil_div_eq {n d v r : Int} (hd : d ≠ 0) (h : n = d * v + r)
    (h1 : 0 < d → -d < r ∧ r ≤ 0) (h2 : d < 0 → 0 ≤ r ∧ r < -d) :
    ⌈(n : ℚ) / (d : ℚ)⌉ = v := by
  have hq : (n : ℚ) = (d : ℚ) * (v : ℚ) + (r : ℚ) := by exact_mod_cast h
  rw [Int.ceil_eq_iff]
  rcases hd.lt_or_lt with hdn | hdp
  · have hdq : (d : ℚ) < 0 := by exact_mod_cast hdn
    obtain ⟨hr1, hr2⟩ := h2 hdn
    have hr1q : (0 : ℚ) ≤ (r : ℚ) := by exact_mod_cast hr1
    have hr2q : (r : ℚ) < -(d : ℚ) := by exact_mod_cast hr2
    constructor
    · rw [lt_div_iff_of_neg hdq, hq]
      have : ((v : ℚ) - 1) * d = d * v - d := by ring
      linarith [this]
    · rw [div_le_iff_of_neg hdq, hq]
      linarith [mul_comm (d : ℚ) (v : ℚ)]
  · have hdq : (0 : ℚ) < (d : ℚ) := by exact_mod_cast hdp
    obtain ⟨hr1, hr2⟩ := h1 hdp
    have hr1q : -(d : ℚ) < (r : ℚ) := by exact_mod_cast hr1
    have hr2q : (r : ℚ) ≤ 0 := by exact_mod_cast hr2
    constructor
    · rw [lt_div_iff₀ hdq, hq]
      have : ((v : ℚ) - 1) * d = d * v - d := by ring
      linarith [this]
    · rw [div_le_iff₀ hdq, hq]
      linarith [mul_comm (d : ℚ) (v : ℚ)]

/-- Counterexample to claim C7: the spec pairs `TOWARD_POSITIVE_INFINITY`
with the floor, but at `n = 1, div = 2` the code returns `1` while the floor
of the true quotient `1/2` is `0` (the mode is in fact the ceiling). -/
theorem toward_positive_infinity_counterexample :
    RoundingModes.TOWARD_POSITIVE_INFINITY 1 2 = .ok 1 ∧
      ⌊(1 : ℚ) / (2 : ℚ)⌋ = 0 := by
  constructor
  · decide
  · rw [Int.floor_eq_iff]
    norm_num

/-- Claim C7 as amended: for every `n` and nonzero `div` (of either sign),
`TOWARD_POSITIVE_INFINITY(n, div)` is the ceiling of the true quotient
`n/div` and `TOWARD_NEGATIVE_INFINITY(n, div)` is its floor, correctly
accounting for the divisor's sign (the floor/ceiling pairing in the claim is
swapped). -/
theorem directed_modes_floor_ceil (n d : Int) (hd : d ≠ 0) :
    RoundingModes.TOWARD_POSITIVE_INFINITY n d = .ok ⌈(n : ℚ) / (d : ℚ)⌉ ∧
      RoundingModes.TOWARD_NEGATIVE_INFINITY n d =
        .ok ⌊(n : ℚ) / (d : ℚ)⌋ := by
  have hid : n.tmod d + d * n.tdiv d = n := Int.tmod_add_tdiv n d
  have habs : |n.tmod d| < |d| := int_abs_tmod_lt n hd
  have hb1 : 0 < d → -d < n.tmod d ∧ n.tmod d < d := by
    intro h
    rw [abs_of_pos h] at habs
    exact abs_lt.mp habs
  have hb2 : d < 0 → d < n.tmod d ∧ n.tmod d < -d := by
    intro h
    rw [abs_of_neg h] at habs
    have := abs_lt.mp habs
    omega
  have hpos : 0 < n → 0 ≤ n.tmod d := fun h => Int.tmod_nonneg d h.le
  have hneg : n ≤ 0 → n.tmod d ≤ 0 := fun h => int_tmod_nonpos n d h
  have hzero : n = 0 → n.tmod d = 0 := fun h => by
    rw [h]
    exact Int.zero_tmod d
  constructor
  · unfold RoundingModes.TOWARD_POSITIVE_INFINITY jsDiv jsMod
    simp only [if_neg hd, jsBind_ok, jsPure]
    by_cases hr : n.tmod d = 0
    · rw [if_pos hr]
      have hv := rat_ceil_div_eq hd
        (show n = d * n.tdiv d + n.tmod d from by linarith [hid])
        (fun hdp => by have := hb1 hdp; omega)
        (fun hdn => by have := hb2 hdn; omega)
      rw [hv]
    · by_cases hs : (0 < n) = (0 < d)
      · rw [if_neg hr, if_pos hs]
        have hv := rat_ceil_div_eq hd
          (show n = d * (n.tdiv d + 1) + (n.tmod d - d) from by
            have hx : d * (n.tdiv d + 1) = d * n.tdiv d + d := by ring
            linarith [hid, hx])
          (fun hdp => by
            have hn : 0 < n := by rw [hs]; exact hdp
            have := hb1 hdp
            have := hpos hn
            omega)
          (fun hdn => by
            have hnn : ¬0 < n := by rw [hs]; omega
            have := hb2 hdn
            have := hneg (by omega)
            omega)
        rw [hv]
      · rw [if_neg hr, if_neg hs]
        have hv := rat_ceil_div_eq hd
          (show n = d * n.tdiv d + n.tmod d from by linarith [hid])
          (fun hdp => by
            have hnn : ¬0 < n := fun h => hs (by rw [eq_true h, eq_true hdp])
            have := hb1 hdp
            have := hneg (by omega)
            omega)
          (fun hdn => by
            have hn : 0 < n := by
              by_contra hn
              exact hs (by rw [eq_false hn, eq_false (by omega : ¬0 < d)])
            have := hb2 hdn
            have := hpos hn
            omega)
        rw [add_zero, hv]
  · unfold RoundingModes.TOWARD_NEGATIVE_INFINITY jsDiv jsMod
    simp only [if_neg hd, jsBind_ok, jsPure]
    by_cases hr : n.tmod d = 0
    · rw [if_pos hr]
      have hv := rat_floor_div_eq hd
        (show n = d * n.tdiv d + n.tmod d from by linarith [hid])
        (fun hdp => by have := hb1 hdp; omega)
        (fun hdn => by have := hb2 hdn; omega)
      rw [hv]
    · by_cases hs : (0 < n) = (0 < d)
      · rw [if_neg hr, if_pos hs]
        have hv := rat_floor_div_eq hd
          (show n = d * n.tdiv d + n.tmod d from by linarith [hid])
          (fun hdp => by
            have hn : 0 < n := by rw [hs]; exact hdp
            have := hb1 hdp
            have := hpos hn
            omega)
          (fun hdn => by
            have hnn : ¬0 < n := by rw [hs]; omega
            have := hb2 hdn
            have := hneg (by omega)
            omega)
        rw [sub_zero, hv]
      · rw [if_neg hr, if_neg hs]
        have hv := rat_floor_div_eq hd
          (show n = d * (n.tdiv d - 1) + (n.tmod d + d) from by
            have hx : d * (n.tdiv d - 1) = d * n.tdiv d - d := by ring
            linarith [hid, hx])
          (fun hdp => by
            have hnn : ¬0 < n := fun h => hs (by rw [eq_true h, eq_true hdp])
            have := hb1 hdp
            have := hneg (by omega)
            omega)
          (fun hdn => by
            have hn : 0 < n := by
              by_contra hn
              exact hs (by rw [eq_false hn, eq_false (by omega : ¬0 < d)])
            have := hb2 hdn
            have := hpos hn
            omega)
        rw [hv]

/-- Witness for C7 (amended) at `n = 5, d = 3`. -/
theorem directed_modes_floor_ceil_witness :
    ((3 : Int) ≠ 0) ∧
      RoundingModes.TOWARD_POSITIVE_INFINITY 5 3 =
        .ok ⌈(5 : ℚ) / (3 : ℚ)⌉ :=
  ⟨by decide, (directed_modes_floor_ceil 5 3 (by decide)).1⟩

namespace BigIntAsDecimal

theorem isDigitCh_toNat {c : Char} (h : isDigitCh c = true) :
    48 ≤ c.toNat ∧ c.toNat ≤ 57 := by
  unfold isDigitCh at h
  simp only [Bool.and_eq_true, decide_eq_true_eq] at h
  exact h

theorem digit_ne_of_toNat {c : Char} (h : isDigitCh c = true) (x : Char)
    (hx : x.toNat < 48 ∨ 57 < x.toNat) : c ≠ x := by
  intro he
  have := isDigitCh_toNat h
  subst he
  omega

theorem isWs_eq_false_of_digit {c : Char} (h : isDigitCh c = true) :
    isWs c = false := by
  rcases Bool.eq_false_or_eq_true (isWs c) with ht | hf
  · exfalso
    unfold isWs at ht
    simp only [Bool.or_eq_true, decide_eq_true_eq] at ht
    have hb := isDigitCh_toNat h
    rcases ht with ((((h1 | h1) | h1) | h1) | h1) | h1 <;> subst h1 <;>
      revert hb <;> decide
  · exact hf

theorem digitVal_digitChar {d : Nat} (h : d < 10) :
    digitVal (digitChar d) = d := by
  interval_cases d <;> decide

theorem isDigitCh_digitChar {d : Nat} (h : d < 10) :
    isDigitCh (digitChar d) = true := by
  interval_cases d <;> decide

theorem dropWhile_eq_self_of_head {p : Char → Bool} {l : List Char}
    (h : ∀ c ∈ l, p c = false) : l.dropWhile p = l := by
  cases l with
  | nil => rfl
  | cons c r =>
    rw [List.dropWhile_cons,
      if_neg (by simp [h c (List.mem_cons_self c r)])]

theorem jsTrim_eq_self {l : List Char} (h : ∀ c ∈ l, isWs c = false) :
    jsTrim l = l := by
  unfold jsTrim
  rw [dropWhile_eq_self_of_head h,
    dropWhile_eq_self_of_head (fun c hc => h c (List.mem_reverse.mp hc)),
    List.reverse_reverse]

theorem takeWhile_all {p : Char → Bool} {l : List Char}
    (h : ∀ c ∈ l, p c = true) :
    l.takeWhile p = l ∧ l.dropWhile p = [] := by
  induction l with
  | nil => exact ⟨rfl, rfl⟩
  | cons c r ih =>
    have hc := h c (List.mem_cons_self c r)
    have hr := ih fun x hx => h x (List.mem_cons_of_mem c hx)
    rw [List.takeWhile_cons, List.dropWhile_cons, if_pos hc, if_pos hc]
    exact ⟨by rw [hr.1], hr.2⟩

theorem takeWhile_append_cons {p : Char → Bool} {A : List Char} {c : Char}
    (R : List Char) (hA : ∀ x ∈ A, p x = true) (hc : p c = false) :
    (A ++ c :: R).takeWhile p = A ∧ (A ++ c :: R).dropWhile p = c :: R := by
  induction A with
  | nil =>
    simp only [List.nil_append]
    rw [List.takeWhile_cons, List.dropWhile_cons, if_neg (by simp [hc]),
      if_neg (by simp [hc])]
    exact ⟨rfl, rfl⟩
  | cons a A ih =>
    have ha := hA a (List.mem_cons_self a A)
    have hA' := ih fun x hx => hA x (List.mem_cons_of_mem a hx)
    simp only [List.cons_append]
    rw [List.takeWhile_cons, List.dropWhile_cons, if_pos ha, if_pos ha]
    exact ⟨by rw [hA'.1], hA'.2⟩

theorem strToNat_acc (l : List Char) (a : Nat) :
    l.foldl (fun a c => a * 10 + digitVal c) a =
      a * 10 ^ l.length + strToNat l := by
  induction l generalizing a with
  | nil => simp [strToNat]
  | cons c r ih =>
    rw [List.foldl_cons]
    rw [ih (a * 10 + digitVal c)]
    have h0 : strToNat (c :: r) = digitVal c * 10 ^ r.length + strToNat r := by
      show List.foldl (fun a c => a * 10 + digitVal c) (0 * 10 + digitVal c) r =
        digitVal c * 10 ^ r.length + strToNat r
      rw [ih (0 * 10 + digitVal c)]
      norm_num
    rw [h0, List.length_cons, pow_succ]
    ring

theorem strToNat_append (A B : List Char) :
    strToNat (A ++ B) = strToNat A * 10 ^ B.length + strToNat B := by
  unfold strToNat
  rw [List.foldl_append]
  exact strToNat_acc B _

theorem strToNat_cons_zero (l : List Char) :
    strToNat ('0' :: l) = strToNat l := rfl

theorem strToNat_replicate_append (k : Nat) (l : List Char) :
    strToNat (List.replicate k '0' ++ l) = strToNat l := by
  induction k with
  | zero => rfl
  | succ k ih =>
    rw [List.replicate_succ, List.cons_append, strToNat_cons_zero, ih]

end BigIntAsDecimal

namespace BigIntAsDecimal

theorem natToDigitsAux_congr :
    ∀ (f1 : Nat), ∀ f2 n, n < f1 → n < f2 →
      natToDigitsAux f1 n = natToDigitsAux f2 n := by
  intro f1
  induction f1 with
  | zero => intro f2 n h1; omega
  | succ f ih =>
    intro f2 n h1 h2
    cases f2 with
    | zero => omega
    | succ g =>
      unfold natToDigitsAux
      by_cases h10 : n < 10
      · rw [if_pos h10, if_pos h10]
      · rw [if_neg h10, if_neg h10, ih g (n / 10) (by omega) (by omega)]

theorem natToDigits_eq (n : Nat) :
    natToDigits n = if n < 10 then [digitChar n]
      else natToDigits (n / 10) ++ [digitChar (n % 10)] := by
  unfold natToDigits
  conv =>
    lhs
    rw [natToDigitsAux]
  by_cases h10 : n < 10
  · rw [if_pos h10, if_pos h10]
  · rw [if_neg h10, if_neg h10,
      natToDigitsAux_congr n (n / 10 + 1) (n / 10) (by omega) (by omega)]

theorem natToDigits_all_digits (n : Nat) :
    ∀ c ∈ natToDigits n, isDigitCh c = true := by
  induction n using Nat.strong_induction_on with
  | _ n ih =>
    rw [natToDigits_eq]
    by_cases h10 : n < 10
    · rw [if_pos h10]
      intro c hc
      rw [List.mem_singleton] at hc
      subst hc
      exact isDigitCh_digitChar h10
    · rw [if_neg h10]
      intro c hc
      rcases List.mem_append.mp hc with h | h
      · exact ih (n / 10) (by omega) c h
      · rw [List.mem_singleton] at h
        subst h
        exact isDigitCh_digitChar (by omega)

theorem natToDigits_ne_nil (n : Nat) : natToDigits n ≠ [] := by
  rw [natToDigits_eq]
  by_cases h10 : n < 10
  · rw [if_pos h10]
    simp
  · rw [if_neg h10]
    simp

theorem strToNat_natToDigits (n : Nat) : strToNat (natToDigits n) = n := by
  induction n using Nat.strong_induction_on with
  | _ n ih =>
    rw [natToDigits_eq]
    by_cases h10 : n < 10
    · rw [if_pos h10]
      show 0 * 10 + digitVal (digitChar n) = n
      rw [digitVal_digitChar h10]
      omega
    · rw [if_neg h10, strToNat_append, ih (n / 10) (by omega)]
      show n / 10 * 10 ^ (List.length [digitChar (n % 10)]) +
        (0 * 10 + digitVal (digitChar (n % 10))) = n
      rw [digitVal_digitChar (by omega : n % 10 < 10)]
      simp only [List.length_singleton, pow_one]
      omega

end BigIntAsDecimal

namespace BigIntAsDecimal

theorem matchSign_digit {c : Char} (rest : List Char)
    (hc : isDigitCh c = true) : matchSign (c :: rest) = (none, c :: rest) := by
  have hcp : ¬(c = '+') := digit_ne_of_toNat hc '+' (by decide)
  have hcm : ¬(c = '-') := digit_ne_of_toNat hc '-' (by decide)
  unfold matchSign
  show (if (decide (c = '+') || decide (c = '-')) = true then (some c, rest)
    else (none, c :: rest)) = (none, c :: rest)
  rw [if_neg (by simp [hcp, hcm])]

theorem matchSign_minus (t : List Char) :
    matchSign ('-' :: t) = (some '-', t) := rfl

theorem matchNumber_int_pos {c : Char} {rest : List Char}
    (hc : isDigitCh c = true) (hrest : ∀ x ∈ rest, isDigitCh x = true) :
    matchNumber (c :: rest) = some ⟨false, c :: rest, none, none⟩ := by
  have hall : ∀ x ∈ c :: rest, isDigitCh x = true := by
    intro x hx
    rcases List.mem_cons.mp hx with h | h
    · subst h; exact hc
    · exact hrest x h
  unfold matchNumber
  simp [matchSign_digit rest hc, matchExpPart,
    (takeWhile_all hall).1, (takeWhile_all hall).2]

theorem matchNumber_int_neg {T : List Char}
    (hT : ∀ x ∈ T, isDigitCh x = true) (hne : T ≠ []) :
    matchNumber ('-' :: T) = some ⟨true, T, none, none⟩ := by
  obtain ⟨c, rest, rfl⟩ := List.exists_cons_of_ne_nil hne
  unfold matchNumber
  simp [matchSign_minus, matchExpPart,
    (takeWhile_all hT).1, (takeWhile_all hT).2]

theorem matchNumber_dec_pos {c : Char} {I F : List Char}
    (hc : isDigitCh c = true) (hI : ∀ x ∈ c :: I, isDigitCh x = true)
    (hF : ∀ x ∈ F, isDigitCh x = true) (hFne : F ≠ []) :
    matchNumber ((c :: I) ++ '.' :: F) =
      some ⟨false, (c :: I) ++ '.' :: F, some F, none⟩ := by
  obtain ⟨cf, restf, rfl⟩ := List.exists_cons_of_ne_nil hFne
  have hdot : isDigitCh '.' = false := by decide
  have hsign : matchSign (c :: (I ++ '.' :: cf :: restf)) =
      (none, c :: (I ++ '.' :: cf :: restf)) := matchSign_digit _ hc
  have htake : List.takeWhile isDigitCh (c :: (I ++ '.' :: cf :: restf)) =
      c :: I := (takeWhile_append_cons (cf :: restf) hI hdot).1
  have hdrop : List.dropWhile isDigitCh (c :: (I ++ '.' :: cf :: restf)) =
      '.' :: cf :: restf := (takeWhile_append_cons (cf :: restf) hI hdot).2
  unfold matchNumber
  simp [hsign, htake, hdrop, matchExpPart,
    (takeWhile_all hF).1, (takeWhile_all hF).2]

theorem matchNumber_dec_neg {I F : List Char}
    (hI : ∀ x ∈ I, isDigitCh x = true)
    (hF : ∀ x ∈ F, isDigitCh x = true) (hFne : F ≠ []) :
    matchNumber ('-' :: (I ++ '.' :: F)) =
      some ⟨true, I ++ '.' :: F, some F, none⟩ := by
  obtain ⟨cf, restf, rfl⟩ := List.exists_cons_of_ne_nil hFne
  have hdot : isDigitCh '.' = false := by decide
  have htake : List.takeWhile isDigitCh (I ++ '.' :: cf :: restf) = I :=
    (takeWhile_append_cons (cf :: restf) hI hdot).1
  have hdrop : List.dropWhile isDigitCh (I ++ '.' :: cf :: restf) =
      '.' :: cf :: restf := (takeWhile_append_cons (cf :: restf) hI hdot).2
  unfold matchNumber
  simp [matchSign_minus, htake, hdrop, matchExpPart,
    (takeWhile_all hF).1, (takeWhile_all hF).2]

theorem replaceFirstDot_append_dot {I : List Char} (F : List Char)
    (hI : ∀ x ∈ I, isDigitCh x = true) :
    replaceFirstDot (I ++ '.' :: F) = I ++ F := by
  induction I with
  | nil => simp [replaceFirstDot]
  | cons c I ih =>
    have hc : ¬(c = '.') :=
      digit_ne_of_toNat (hI c (List.mem_cons_self c I)) '.' (by decide)
    rw [List.cons_append, replaceFirstDot, if_neg hc,
      ih fun x hx => hI x (List.mem_cons_of_mem c hx), List.cons_append]

theorem replaceFirstDot_all_digits {l : List Char}
    (hl : ∀ x ∈ l, isDigitCh x = true) : replaceFirstDot l = l := by
  induction l with
  | nil => rfl
  | cons c r ih =>
    have hc : ¬(c = '.') :=
      digit_ne_of_toNat (hl c (List.mem_cons_self c r)) '.' (by decide)
    rw [replaceFirstDot, if_neg hc,
      ih fun x hx => hl x (List.mem_cons_of_mem c hx)]

theorem jsBigInt_of_digit {c : Char} (rest : List Char)
    (hc : isDigitCh c = true) :
    jsBigInt (c :: rest) = (strToNat (c :: rest) : Int) := by
  have hcm : ¬(c = '-') := digit_ne_of_toNat hc '-' (by decide)
  unfold jsBigInt
  split
  · next ds heq =>
    rw [List.cons.injEq] at heq
    exact absurd heq.1 hcm
  · rfl

theorem jsBigInt_neg (ds : List Char) :
    jsBigInt ('-' :: ds) = -(strToNat ds : Int) := rfl

end BigIntAsDecimal

namespace BigIntAsDecimal

theorem bigIntToString_nonWs (v : Int) :
    ∀ c ∈ bigIntToString v, isWs c = false := by
  intro c hc
  unfold bigIntToString at hc
  by_cases hv : v < 0
  · rw [if_pos hv] at hc
    rcases List.mem_cons.mp hc with h | h
    · subst h; decide
    · exact isWs_eq_false_of_digit (natToDigits_all_digits _ c h)
  · rw [if_neg hv] at hc
    exact isWs_eq_false_of_digit (natToDigits_all_digits _ c hc)

theorem parse_intString (v : Int) :
    parse ⟨bigIntToString v⟩ none = .ok (some ⟨v, 0⟩) := by
  have htrim : jsTrim (bigIntToString v) = bigIntToString v :=
    jsTrim_eq_self (bigIntToString_nonWs v)
  by_cases hv : v < 0
  · have hbs : bigIntToString v = '-' :: natToDigits v.natAbs := by
      unfold bigIntToString
      rw [if_pos hv]
    have hm := matchNumber_int_neg (natToDigits_all_digits v.natAbs)
      (natToDigits_ne_nil v.natAbs)
    have hrep := replaceFirstDot_all_digits (natToDigits_all_digits v.natAbs)
    rw [hbs] at htrim
    have hneg : -((v.natAbs : Nat) : Int) = v := by omega
    unfold parse
    simp [hbs, htrim, hm, hrep, jsBigInt_neg, strToNat_natToDigits, hneg,
      abs_of_neg hv]
  · have hbs : bigIntToString v = natToDigits v.natAbs := by
      unfold bigIntToString
      rw [if_neg hv]
    obtain ⟨c, rest, hD⟩ :=
      List.exists_cons_of_ne_nil (natToDigits_ne_nil v.natAbs)
    have hdig := natToDigits_all_digits v.natAbs
    rw [hD] at hdig
    have hm := matchNumber_int_pos (hdig c (List.mem_cons_self c rest))
      fun x hx => hdig x (List.mem_cons_of_mem c hx)
    have hrep : replaceFirstDot (c :: rest) = c :: rest :=
      replaceFirstDot_all_digits hdig
    have hbig : jsBigInt (c :: rest) = (strToNat (c :: rest) : Int) :=
      jsBigInt_of_digit rest (hdig c (List.mem_cons_self c rest))
    have hval : strToNat (c :: rest) = v.natAbs := by
      rw [← hD]
      exact strToNat_natToDigits v.natAbs
    rw [hbs, hD] at htrim
    have hpos : ((v.natAbs : Nat) : Int) = v := by omega
    unfold parse
    simp [hbs, hD, htrim, hm, hrep, hbig, hval, hpos]

end BigIntAsDecimal

namespace BigIntAsDecimal

theorem compare_self (c e : Int) : compare c e c e = .ok 0 := by
  unfold compare
  simp [scaleCoefSafe_of_le c e e le_rfl]

theorem compare_scaled (v coef exp : Int) (hx : 0 ≤ exp)
    (hv : v = coef * 10 ^ exp.toNat) : compare v 0 coef exp = .ok 0 := by
  unfold compare
  simp only [min_eq_left hx, scaleCoefSafe_of_le v 0 0 le_rfl,
    scaleCoefSafe_of_le coef exp 0 hx, jsBind_ok, jsPure, sub_zero]
  simp [hv]

theorem stringify_nonneg_exp (coef exp : Int) (hx : 0 ≤ exp) :
    stringify coef exp = .ok ⟨bigIntToString (coef * 10 ^ exp.toNat)⟩ := by
  unfold stringify
  rw [if_pos hx, scaleCoefSafe_of_le coef exp 0 hx]
  simp

end BigIntAsDecimal

namespace BigIntAsDecimal

theorem stringify_digits_eq (coef : Int) :
    jsSlice1 (bigIntToString coef) (if coef < 0 then (1 : Int) else 0) =
      natToDigits coef.natAbs := by
  by_cases hc : coef < 0
  · rw [if_pos hc]
    unfold bigIntToString
    rw [if_pos hc]
    unfold jsSlice1 jsSliceIdx
    rw [if_neg (by omega : ¬(1 : Int) < 0)]
    have h1 : ((1 : Int)).toNat = 1 := rfl
    rw [h1, List.length_cons,
      min_eq_left (by omega : 1 ≤ (natToDigits coef.natAbs).length + 1)]
    simp
  · rw [if_neg hc]
    unfold bigIntToString
    rw [if_neg hc]
    unfold jsSlice1 jsSliceIdx
    rw [if_neg (by omega : ¬(0 : Int) < 0)]
    simp

theorem padStart_digits {l : List Char} (t : Nat)
    (h : ∀ x ∈ l, isDigitCh x = true) :
    ∀ x ∈ padStart l t, isDigitCh x = true := by
  intro x hx
  unfold padStart at hx
  rcases List.mem_append.mp hx with h1 | h1
  · rw [List.eq_of_mem_replicate h1]
    decide
  · exact h x h1

theorem padStart_length (l : List Char) (t : Nat) :
    (padStart l t).length = max t l.length := by
  unfold padStart
  rw [List.length_append, List.length_replicate]
  omega

theorem strToNat_pad_split (D : List Char) (k : Nat) :
    strToNat (padStart (D.take (D.length - k)) 1 ++
      padStart (D.drop (D.length - k)) k) = strToNat D := by
  by_cases hj : D.length - k = 0
  · rw [hj, List.take_zero, List.drop_zero]
    have h0 : padStart [] 1 = ['0'] := rfl
    rw [h0]
    unfold padStart
    rw [show (['0'] ++ (List.replicate (k - D.length) '0' ++ D)) =
      '0' :: (List.replicate (k - D.length) '0' ++ D) from rfl,
      strToNat_cons_zero, strToNat_replicate_append]
  · have hjlen : D.length - k ≤ D.length := by omega
    have htl : (D.take (D.length - k)).length = D.length - k := by
      rw [List.length_take]
      omega
    have hdl : (D.drop (D.length - k)).length = k := by
      rw [List.length_drop]
      omega
    unfold padStart
    rw [htl, hdl, show 1 - (D.length - k) = 0 from by omega, Nat.sub_self]
    simp only [List.replicate_zero, List.nil_append]
    rw [List.take_append_drop]

theorem all_nonWs_decStr {I F : List Char}
    (hI : ∀ x ∈ I, isDigitCh x = true) (hF : ∀ x ∈ F, isDigitCh x = true) :
    ∀ c ∈ I ++ '.' :: F, isWs c = false := by
  intro c hc
  rcases List.mem_append.mp hc with h | h
  · exact isWs_eq_false_of_digit (hI c h)
  · rcases List.mem_cons.mp h with h1 | h1
    · subst h1; decide
    · exact isWs_eq_false_of_digit (hF c h1)

end BigIntAsDecimal

namespace BigIntAsDecimal

theorem stringify_neg_exp (coef exp : Int) (hexp : exp < 0) :
    stringify coef exp =
      .ok ⟨(if coef < 0 then ['-'] else []) ++
        (padStart ((natToDigits coef.natAbs).take
          ((natToDigits coef.natAbs).length - (-exp).toNat)) 1 ++
        '.' :: padStart ((natToDigits coef.natAbs).drop
          ((natToDigits coef.natAbs).length - (-exp).toNat)) (-exp).toNat)⟩ := by
  unfold stringify
  rw [if_neg (by omega), stringify_digits_eq coef]
  have h2 : jsSlice2 (natToDigits coef.natAbs) 0 exp =
      (natToDigits coef.natAbs).take
        ((natToDigits coef.natAbs).length - (-exp).toNat) := by
    unfold jsSlice2 jsSliceIdx
    rw [if_pos hexp, if_neg (by omega : ¬(0 : Int) < 0)]
    rw [show ((0 : Int)).toNat = 0 from rfl, Nat.zero_min, List.drop_zero,
      show ((((natToDigits coef.natAbs).length : Nat) : Int) + exp).toNat =
        (natToDigits coef.natAbs).length - (-exp).toNat from by omega]
  have h1 : jsSlice1 (natToDigits coef.natAbs) exp =
      (natToDigits coef.natAbs).drop
        ((natToDigits coef.natAbs).length - (-exp).toNat) := by
    unfold jsSlice1 jsSliceIdx
    rw [if_pos hexp,
      show ((((natToDigits coef.natAbs).length : Nat) : Int) + exp).toNat =
        (natToDigits coef.natAbs).length - (-exp).toNat from by omega]
  simp [h2, h1]

end BigIntAsDecimal

namespace BigIntAsDecimal

theorem parse_decStr_pos {I F : List Char}
    (hI : ∀ x ∈ I, isDigitCh x = true) (hF : ∀ x ∈ F, isDigitCh x = true)
    (hIne : I ≠ []) (hFne : F ≠ []) :
    parse ⟨I ++ '.' :: F⟩ none =
      .ok (some ⟨(strToNat (I ++ F) : Int), -(F.length : Int)⟩) := by
  obtain ⟨cI, I2, rfl⟩ := List.exists_cons_of_ne_nil hIne
  have hcI : isDigitCh cI = true := hI cI (List.mem_cons_self _ _)
  have htrim : jsTrim (cI :: (I2 ++ '.' :: F)) = cI :: (I2 ++ '.' :: F) :=
    jsTrim_eq_self (all_nonWs_decStr hI hF)
  have hm : matchNumber (cI :: (I2 ++ '.' :: F)) =
      some ⟨false, cI :: (I2 ++ '.' :: F), some F, none⟩ :=
    matchNumber_dec_pos hcI hI hF hFne
  have hrep : replaceFirstDot (cI :: (I2 ++ '.' :: F)) = cI :: (I2 ++ F) :=
    replaceFirstDot_append_dot F hI
  have hbig : jsBigInt (cI :: (I2 ++ F)) = (strToNat (cI :: (I2 ++ F)) : Int) :=
    jsBigInt_of_digit (I2 ++ F) hcI
  unfold parse
  simp [htrim, hm, hrep, hbig]

theorem parse_decStr_neg {I F : List Char}
    (hI : ∀ x ∈ I, isDigitCh x = true) (hF : ∀ x ∈ F, isDigitCh x = true)
    (hFne : F ≠ []) :
    parse ⟨'-' :: (I ++ '.' :: F)⟩ none =
      .ok (some ⟨-(strToNat (I ++ F) : Int), -(F.length : Int)⟩) := by
  have hws : ∀ c ∈ '-' :: (I ++ '.' :: F), isWs c = false := by
    intro c hc
    rcases List.mem_cons.mp hc with h | h
    · subst h; decide
    · exact all_nonWs_decStr hI hF c h
  have htrim := jsTrim_eq_self hws
  have hm := matchNumber_dec_neg hI hF hFne
  have hrep := replaceFirstDot_append_dot F hI
  unfold parse
  simp [htrim, hm, hrep, jsBigInt_neg]

end BigIntAsDecimal

/-- Claim C8: for every coefficient and exponent, `parse(stringify(coef, exp))`
succeeds (returns a decimal, not the `null` no-match sentinel) and the result
is numerically equal to `Decimal(coef, exp)`: `compare` between them returns
`0`. -/
theorem parse_stringify_roundtrip (coef exp : Int) :
    ∃ s d, BigIntAsDecimal.stringify coef exp = .ok s ∧
      BigIntAsDecimal.parse s none = .ok (some d) ∧
      BigIntAsDecimal.compare d.coef d.exp coef exp = .ok 0 := by
  by_cases hx : 0 ≤ exp
  · exact ⟨_, ⟨coef * 10 ^ exp.toNat, 0⟩,
      BigIntAsDecimal.stringify_nonneg_exp coef exp hx,
      BigIntAsDecimal.parse_intString _,
      BigIntAsDecimal.compare_scaled _ coef exp hx rfl⟩
  · have hexp : exp < 0 := by omega
    have hDdig := BigIntAsDecimal.natToDigits_all_digits coef.natAbs
    have hI : ∀ x ∈ BigIntAsDecimal.padStart
        ((BigIntAsDecimal.natToDigits coef.natAbs).take
          ((BigIntAsDecimal.natToDigits coef.natAbs).length - (-exp).toNat))
        1, BigIntAsDecimal.isDigitCh x = true :=
      BigIntAsDecimal.padStart_digits 1
        (fun x hx2 => hDdig x (List.take_subset _ _ hx2))
    have hF : ∀ x ∈ BigIntAsDecimal.padStart
        ((BigIntAsDecimal.natToDigits coef.natAbs).drop
          ((BigIntAsDecimal.natToDigits coef.natAbs).length - (-exp).toNat))
        (-exp).toNat, BigIntAsDecimal.isDigitCh x = true :=
      BigIntAsDecimal.padStart_digits (-exp).toNat
        (fun x hx2 => hDdig x (List.drop_subset _ _ hx2))
    have hIlen := BigIntAsDecimal.padStart_length
      ((BigIntAsDecimal.natToDigits coef.natAbs).take
        ((BigIntAsDecimal.natToDigits coef.natAbs).length - (-exp).toNat)) 1
    have hFlen : (BigIntAsDecimal.padStart
        ((BigIntAsDecimal.natToDigits coef.natAbs).drop
          ((BigIntAsDecimal.natToDigits coef.natAbs).length - (-exp).toNat))
        (-exp).toNat).length = (-exp).toNat := by
      rw [BigIntAsDecimal.padStart_length, List.length_drop]
      omega
    have hIne : BigIntAsDecimal.padStart
        ((BigIntAsDecimal.natToDigits coef.natAbs).take
          ((BigIntAsDecimal.natToDigits coef.natAbs).length - (-exp).toNat))
        1 ≠ [] := by
      intro h
      rw [h] at hIlen
      simp at hIlen
      omega
    have hFne : BigIntAsDecimal.padStart
        ((BigIntAsDecimal.natToDigits coef.natAbs).drop
          ((BigIntAsDecimal.natToDigits coef.natAbs).length - (-exp).toNat))
        (-exp).toNat ≠ [] := by
      intro h
      rw [h] at hFlen
      simp at hFlen
      omega
    have hkey := (BigIntAsDecimal.strToNat_pad_split
      (BigIntAsDecimal.natToDigits coef.natAbs) (-exp).toNat).trans
      (BigIntAsDecimal.strToNat_natToDigits coef.natAbs)
    have hexpeq : (0 : Int) - ((-exp).toNat : Int) = exp := by omega
    rw [BigIntAsDecimal.strToNat_append, hFlen] at hkey
    by_cases hc : coef < 0
    · have hs := BigIntAsDecimal.stringify_neg_exp coef exp hexp
      rw [if_pos hc] at hs
      have hp := BigIntAsDecimal.parse_decStr_neg hI hF hFne
      rw [BigIntAsDecimal.strToNat_append, hFlen, hkey] at hp
      have h1 : -((coef.natAbs : Nat) : Int) = coef := by omega
      have h2 : -(((-exp).toNat : Nat) : Int) = exp := by omega
      rw [h1, h2] at hp
      exact ⟨_, ⟨coef, exp⟩, hs, hp, BigIntAsDecimal.compare_self coef exp⟩
    · have hs := BigIntAsDecimal.stringify_neg_exp coef exp hexp
      rw [if_neg hc] at hs
      have hp := BigIntAsDecimal.parse_decStr_pos hI hF hIne hFne
      rw [BigIntAsDecimal.strToNat_append, hFlen, hkey] at hp
      have h1 : ((coef.natAbs : Nat) : Int) = coef := by omega
      have h2 : -(((-exp).toNat : Nat) : Int) = exp := by omega
      rw [h1, h2] at hp
      exact ⟨_, ⟨coef, exp⟩, hs, hp, BigIntAsDecimal.compare_self coef exp⟩
